import Mathlib

/-!
Verification development for the `unassemblize` function disassembler
(`src/function.cpp`).  The definitions below are a shallow embedding of the
code: the per-function label map `m_labels`, the five Zydis formatter hooks,
the jump-table scanner, and the two-pass `Function::disassemble` loops.
Machine addresses are modelled as `Nat` (they are `uint64_t` in the source;
the one subtraction whose wrap-around matters is written with an explicit
`% 2 ^ 64`).  External collaborators (the Zydis decoder and formatter, the
executable image) are modelled as oracle parameters.
-/

namespace Unassemblize

/-- Shallow embedding of the per-function label map `m_labels`
(a `std::map<uint64_t, std::string>` in `function.cpp`), as an association
list from address to label name. -/
abbrev LabelTable := List (Nat × String)

/-- Embedding of `m_labels.find(a)`: the stored name at address `a`, if any. -/
def lookupLabel : LabelTable → Nat → Option String
  | [], _ => none
  | (b, s) :: t, a => if a = b then some s else lookupLabel t a

/-- Lowercase hexadecimal rendering, as produced by `std::hex` and the
`%x` / `PRIx64` format conversions in the source. -/
def hexStr (n : Nat) : String :=
  (Nat.toDigits 16 n).asString

/-- Label names are deterministic: `"label_" + hex(address)`
(function.cpp lines 380-382, 400-402, 409-411). -/
def labelName (a : Nat) : String :=
  "label_" ++ hexStr a

/-- Embedding of the guarded insertion pattern used at every insertion site of
pass 1: `if (m_labels.find(a) == m_labels.end()) m_labels[a] = "label_" + hex(a)`.
If a label already exists at `a` the table is returned unchanged. -/
def insertLabel (t : LabelTable) (a : Nat) : LabelTable :=
  if (lookupLabel t a).isSome then t else (a, labelName a) :: t

/-- Embedding of `std::map::operator[]` as used by pass 2
(`m_dissassembly += m_labels[addr]`): returns the stored string, or inserts an
empty string and returns it when the key is absent. -/
def mapIndex (t : LabelTable) (a : Nat) : String × LabelTable :=
  match lookupLabel t a with
  | some s => (s, t)
  | none => ("", (a, "") :: t)

/-- Embedding of `unassemblize::Executable::Symbol` as consumed by the hooks:
a name and a value (the symbol's address).  `get_symbol` may return a symbol
whose value is below the queried address (nearest-at-or-below lookup), or a
symbol with an empty name when nothing is found. -/
structure Symbol where
  name : String
  value : Nat
deriving DecidableEq

/-- Image/section environment the formatter hooks read through the
`unassemblize::Function` accessors: `section_address()`, `section_end()`,
`executable().base_address()`, `executable().end_address()`, and
`executable().get_symbol(address)`. -/
structure ExeEnv where
  sectionAddress : Nat
  sectionEnd : Nat
  baseAddress : Nat
  endAddress : Nat
  getSymbol : Nat → Symbol

/-- Result of one operand-printing hook: either the text written into the
formatter buffer, or delegation to the saved default Zydis callback
(the `return default_print_...(formatter, buffer, context)` tail calls). -/
inductive HookOut where
  | text (s : String)
  | default
deriving DecidableEq

/-- Embedding of `UnasmFormatterPrintAddressAbsolute`
(function.cpp lines 57-97): local label, then section symbol (fallback
`sub_<hex>`), then image symbol (fallback `off_<hex>`), then default. -/
def UnasmFormatterPrintAddressAbsolute (env : ExeEnv) (labels : LabelTable)
    (address : Nat) : HookOut :=
  match lookupLabel labels address with
  | some s => .text s
  | none =>
    if env.sectionAddress ≤ address ∧ address ≤ env.sectionEnd then
      let symbol := env.getSymbol address
      if symbol.name ≠ "" ∧ symbol.value = address then .text symbol.name
      else .text ("sub_" ++ hexStr address)
    else if env.baseAddress ≤ address ∧ address ≤ env.endAddress then
      let symbol := env.getSymbol address
      if symbol.name ≠ "" ∧ symbol.value = address then .text symbol.name
      else .text ("off_" ++ hexStr address)
    else .default

/-- Embedding of `UnasmFormatterPrintAddressRelative`
(function.cpp lines 101-140); the body is a verbatim duplicate of the
absolute-address hook in the source. -/
def UnasmFormatterPrintAddressRelative (env : ExeEnv) (labels : LabelTable)
    (address : Nat) : HookOut :=
  match lookupLabel labels address with
  | some s => .text s
  | none =>
    if env.sectionAddress ≤ address ∧ address ≤ env.sectionEnd then
      let symbol := env.getSymbol address
      if symbol.name ≠ "" ∧ symbol.value = address then .text symbol.name
      else .text ("sub_" ++ hexStr address)
    else if env.baseAddress ≤ address ∧ address ≤ env.endAddress then
      let symbol := env.getSymbol address
      if symbol.name ≠ "" ∧ symbol.value = address then .text symbol.name
      else .text ("off_" ++ hexStr address)
    else .default

/-- Embedding of `UnasmFormatterPrintIMM` (function.cpp lines 144-183);
again a duplicate of the absolute-address chain. -/
def UnasmFormatterPrintIMM (env : ExeEnv) (labels : LabelTable)
    (address : Nat) : HookOut :=
  match lookupLabel labels address with
  | some s => .text s
  | none =>
    if env.sectionAddress ≤ address ∧ address ≤ env.sectionEnd then
      let symbol := env.getSymbol address
      if symbol.name ≠ "" ∧ symbol.value = address then .text symbol.name
      else .text ("sub_" ++ hexStr address)
    else if env.baseAddress ≤ address ∧ address ≤ env.endAddress then
      let symbol := env.getSymbol address
      if symbol.name ≠ "" ∧ symbol.value = address then .text symbol.name
      else .text ("off_" ++ hexStr address)
    else .default

/-- Embedding of `UnasmFormatterPrintDISP` (function.cpp lines 187-235).
All emitted text carries a leading `+`.  In the section branch the source's
format string is `"+%s+0x%"` (line 210): the trailing `%` starts a conversion
that is never completed, so the computed `diff` argument is not rendered; we
keep that dangling `%` literally.  In the image branch the format string is
`"+%s+0x%" PRIx64` (line 227), which does render the difference.  The
difference `address - symbol.value` is a `uint64_t` subtraction, written here
with an explicit wrap at `2 ^ 64`. -/
def UnasmFormatterPrintDISP (env : ExeEnv) (labels : LabelTable)
    (address : Nat) : HookOut :=
  match lookupLabel labels address with
  | some s => .text ("+" ++ s)
  | none =>
    if env.sectionAddress ≤ address ∧ address ≤ env.sectionEnd then
      let symbol := env.getSymbol address
      if symbol.name ≠ "" then
        if symbol.value = address then .text ("+" ++ symbol.name)
        else .text ("+" ++ symbol.name ++ "+0x%")
      else .text ("+sub_" ++ hexStr address)
    else if env.baseAddress ≤ address ∧ address ≤ env.endAddress then
      let symbol := env.getSymbol address
      if symbol.name ≠ "" then
        if symbol.value = address then .text ("+" ++ symbol.name)
        else .text ("+" ++ symbol.name ++ "+0x"
          ++ hexStr ((address + 2 ^ 64 - symbol.value % 2 ^ 64) % 2 ^ 64))
      else .text ("+off_" ++ hexStr address)
    else .default

/-- Embedding of `UnasmFormatterFormatOperandPTR`
(function.cpp lines 239-278): same chain as the absolute-address hook,
except that the image-range fallback is `unk_<hex>` (line 274). -/
def UnasmFormatterFormatOperandPTR (env : ExeEnv) (labels : LabelTable)
    (address : Nat) : HookOut :=
  match lookupLabel labels address with
  | some s => .text s
  | none =>
    if env.sectionAddress ≤ address ∧ address ≤ env.sectionEnd then
      let symbol := env.getSymbol address
      if symbol.name ≠ "" ∧ symbol.value = address then .text symbol.name
      else .text ("sub_" ++ hexStr address)
    else if env.baseAddress ≤ address ∧ address ≤ env.endAddress then
      let symbol := env.getSymbol address
      if symbol.name ≠ "" ∧ symbol.value = address then .text symbol.name
      else .text ("unk_" ++ hexStr address)
    else .default

/-- Embedding of `get_le32` (function.cpp lines 9-12): read four bytes at
`offset` from the section data as an unsigned little-endian 32-bit word.
Section data is modelled as a total byte oracle; each byte is a `uint8_t`,
hence the explicit `% 256`. -/
def get_le32 (bytes : Nat → Nat) (offset : Nat) : Nat :=
  bytes offset % 256 + 256 * (bytes (offset + 1) % 256)
    + 65536 * (bytes (offset + 2) % 256) + 16777216 * (bytes (offset + 3) % 256)

/-- Embedding of the pass-1 jump-table scan (function.cpp lines 391-417): the
inner `while` that runs after a `nop`/`jmp`, reading consecutive little-endian
32-bit words while they fall inside `[startA, endA]`.  On the first qualifying
iteration it inserts a label at the anchor (the runtime address just past the
triggering instruction, range- and find-guarded); every qualifying word value
gets a find-guarded label.  Returns the final label table, offset and runtime
address.  The C loop has no bound of its own; `fuel` bounds the recursion. -/
def scanJumpTablePass1 (startA endA : Nat) (bytes : Nat → Nat) :
    Nat → Nat → Nat → Bool → LabelTable → LabelTable × Nat × Nat
  | 0, offset, runtime, _, labels => (labels, offset, runtime)
  | fuel + 1, offset, runtime, inTable, labels =>
    let next_int := get_le32 bytes offset
    if startA ≤ next_int ∧ next_int ≤ endA then
      let labels1 :=
        if !inTable then
          if startA ≤ runtime ∧ runtime ≤ endA then insertLabel labels runtime
          else labels
        else labels
      scanJumpTablePass1 startA endA bytes fuel (offset + 4) (runtime + 4) true
        (insertLabel labels1 next_int)
    else (labels, offset, runtime)

/-- Embedding of the pass-2 jump-table scan (function.cpp lines 445-469): the
same traversal as pass 1, but emitting text instead of inserting labels.  On
the first qualifying iteration it emits `<anchor label>:\n` when the anchor is
labelled; every qualifying word whose value has a label yields a
`    .int <labelname>\n` line.  The disassembly string `m_dissassembly` is
modelled as the list of appended chunks (its text is their concatenation);
`m_labels[x]` reads go through `mapIndex`, exactly as in the source. -/
def scanJumpTablePass2 (startA endA : Nat) (bytes : Nat → Nat) :
    Nat → Nat → Nat → Bool → LabelTable → List String →
      List String × LabelTable × Nat × Nat
  | 0, offset, runtime, _, labels, lines => (lines, labels, offset, runtime)
  | fuel + 1, offset, runtime, inTable, labels, lines =>
    let next_int := get_le32 bytes offset
    if startA ≤ next_int ∧ next_int ≤ endA then
      let p1 :=
        if !inTable then
          if (lookupLabel labels runtime).isSome then
            let q := mapIndex labels runtime
            (lines ++ [q.1 ++ ":\n"], q.2)
          else (lines, labels)
        else (lines, labels)
      let p2 :=
        if (lookupLabel p1.2 next_int).isSome then
          let q := mapIndex p1.2 next_int
          (p1.1 ++ ["    .int " ++ q.1 ++ "\n"], q.2)
        else p1
      scanJumpTablePass2 startA endA bytes fuel (offset + 4) (runtime + 4) true
        p2.2 p2.1
    else (lines, labels, offset, runtime)

/-- Decoded-instruction fields consumed by `Function::disassemble`: the
encoded byte length (`info.length`), the relative-immediate flag
(`info.raw.imm->is_relative`), the absolute target computed by
`ZydisCalcAbsoluteAddress` for a relative immediate, and whether the mnemonic
is `ZYDIS_MNEMONIC_NOP` or `ZYDIS_MNEMONIC_JMP`. -/
structure Ins where
  length : Nat
  isRelative : Bool
  relTarget : Nat
  isNopOrJmp : Bool
deriving DecidableEq

/-- Embedding of pass 1 of `Function::disassemble` (function.cpp lines
368-419).  `decode` is the external Zydis decoder, keyed by section offset
(`UnasmDisassembleNoFormat` succeeding or failing); decoding happens in the
`while` condition, so a failing decode or `offset > endOff` ends the pass with
the labels gathered so far.  A relative immediate whose absolute target lies
in `[startA, endA]` gets a find-guarded label; after a `nop`/`jmp` the
jump-table scan runs.  `jfuel` bounds each inner scan, `fuel` the outer loop. -/
def disassemblePass1 (decode : Nat → Option Ins) (bytes : Nat → Nat)
    (startA endA endOff jfuel : Nat) :
    Nat → Nat → Nat → LabelTable → LabelTable
  | 0, _, _, labels => labels
  | fuel + 1, offset, runtime, labels =>
    match decode offset with
    | none => labels
    | some ins =>
      if offset ≤ endOff then
        let labels1 :=
          if ins.isRelative then
            if startA ≤ ins.relTarget ∧ ins.relTarget ≤ endA then
              insertLabel labels ins.relTarget
            else labels
          else labels
        if ins.isNopOrJmp then
          let s := scanJumpTablePass1 startA endA bytes jfuel
            (offset + ins.length) (runtime + ins.length) false labels1
          disassemblePass1 decode bytes startA endA endOff jfuel fuel
            s.2.1 s.2.2 s.1
        else
          disassemblePass1 decode bytes startA endA endOff jfuel fuel
            (offset + ins.length) (runtime + ins.length) labels1
      else labels

/-- Embedding of pass 2 of `Function::disassemble` (function.cpp lines
425-471).  `fmt` is the external Zydis formatter with the five hooks bound
(`UnasmDisassembleCustom`): the text it produces for the instruction at an
offset depends on the current label table, which the hooks read.  Formatting
happens in the `while` condition, before the label line is emitted.  Each
loop iteration emits `<label>:\n` when the runtime address is labelled
(via `mapIndex`, the source's guarded `m_labels[...]`), then the indented
instruction line, then runs the pass-2 jump-table scan after a `nop`/`jmp`.
Returns the chunk list and the final label table. -/
def disassemblePass2 (decode : Nat → Option Ins)
    (fmt : Nat → LabelTable → String) (bytes : Nat → Nat)
    (startA endA endOff jfuel : Nat) :
    Nat → Nat → Nat → LabelTable → List String → List String × LabelTable
  | 0, _, _, labels, lines => (lines, labels)
  | fuel + 1, offset, runtime, labels, lines =>
    match decode offset with
    | none => (lines, labels)
    | some ins =>
      if offset ≤ endOff then
        let text := fmt offset labels
        let p1 :=
          if (lookupLabel labels runtime).isSome then
            let q := mapIndex labels runtime
            (lines ++ [q.1 ++ ":\n"], q.2)
          else (lines, labels)
        let lines2 := p1.1 ++ ["    " ++ text ++ "\n"]
        if ins.isNopOrJmp then
          let s := scanJumpTablePass2 startA endA bytes jfuel
            (offset + ins.length) (runtime + ins.length) false p1.2 lines2
          disassemblePass2 decode fmt bytes startA endA endOff jfuel fuel
            s.2.2.1 s.2.2.2 s.2.1 s.1
        else
          disassemblePass2 decode fmt bytes startA endA endOff jfuel fuel
            (offset + ins.length) (runtime + ins.length) p1.2 lines2
      else (lines, labels)

/-- Environment of one `Function::disassemble` run: the decoder and formatter
oracles, the section byte data, the section base address and size. -/
structure DisasmEnv where
  decode : Nat → Option Ins
  fmt : Nat → LabelTable → String
  bytes : Nat → Nat
  sectionAddr : Nat
  sectionSize : Nat

/-- Embedding of `unassemblize::Function::disassemble` (function.cpp lines
352-472): early-exit on a zero-size section, then pass 1 (label discovery)
followed by pass 2 (text emission) over `[m_startAddress, m_endAddress]`.
State threaded through: the label table `m_labels` and the chunk list of
`m_dissassembly` (pass 2 appends to it).  Returns the updated pair. -/
def disassemble (e : DisasmEnv) (startA endA fuel jfuel : Nat)
    (labels : LabelTable) (text : List String) : LabelTable × List String :=
  if e.sectionSize = 0 then (labels, text)
  else
    let offset := startA - e.sectionAddr
    let endOff := endA - e.sectionAddr
    let labels1 := disassemblePass1 e.decode e.bytes startA endA endOff jfuel
      fuel offset startA labels
    let r := disassemblePass2 e.decode e.fmt e.bytes startA endA endOff jfuel
      fuel offset startA labels1 text
    (r.2, r.1)

/-- Concrete hook environment: the image symbol table has an exact symbol
`sym` at address 5000, which is inside the section `[4096, 8191]`. -/
def envC1 : ExeEnv :=
  ⟨4096, 8191, 1024, 102400, fun a => if a = 5000 then ⟨"sym", 5000⟩ else ⟨"", 0⟩⟩

/-- Concrete hook environment whose symbol lookup always answers with the
nearest-preceding symbol `bar` at address 4608. -/
def envC4 : ExeEnv := ⟨4096, 8191, 1024, 102400, fun _ => ⟨"bar", 4608⟩⟩

/-- Concrete hook environment with an empty symbol table. -/
def envC5 : ExeEnv := ⟨4096, 8191, 1024, 102400, fun _ => ⟨"", 0⟩⟩

/-- Concrete disassembly environment whose section has size zero. -/
def envC7 : DisasmEnv := ⟨fun _ => none, fun _ _ => "", fun _ => 0, 0, 0⟩

/-- Concrete section bytes: a two-byte `jmp` at offset 0, then the
little-endian words 4100, 4104, 4108 at offsets 2, 6, 10 and the word 0 at
offset 14 (all other bytes are zero). -/
def bytesW : Nat → Nat := fun i =>
  if i = 2 then 4 else if i = 3 then 16
  else if i = 6 then 8 else if i = 7 then 16
  else if i = 10 then 12 else if i = 11 then 16 else 0

/-- Concrete decoder: offset 0 holds a two-byte unconditional `jmp` with no
relative immediate; decoding fails everywhere else. -/
def decodeW2 : Nat → Option Ins := fun o =>
  if o = 0 then some ⟨2, false, 0, true⟩ else none

/-- Concrete formatter oracle producing a fixed instruction text. -/
def fmtW : Nat → LabelTable → String := fun _ _ => "jmp eax"

/-- Concrete decoder: offset 0 holds a three-byte instruction that is neither
`nop` nor `jmp`; decoding fails everywhere else. -/
def decodeW6 : Nat → Option Ins := fun o =>
  if o = 0 then some ⟨3, false, 0, false⟩ else none

theorem lookupLabel_insertLabel_self (t : LabelTable) (a : Nat) :
    (lookupLabel (insertLabel t a) a).isSome := by
  cases h : lookupLabel t a with
  | some s => simp [insertLabel, h]
  | none => simp [insertLabel, h, lookupLabel]

theorem lookupLabel_insertLabel_preserve (t : LabelTable) (b a : Nat)
    (s : String) (h : lookupLabel t a = some s) :
    lookupLabel (insertLabel t b) a = some s := by
  cases hb : lookupLabel t b with
  | some u => simpa [insertLabel, hb] using h
  | none =>
    by_cases hab : a = b
    · rw [hab] at h; rw [h] at hb; cases hb
    · simp [insertLabel, hb, lookupLabel, hab, h]

theorem lookupLabel_insertLabel_isSome (t : LabelTable) (b a : Nat)
    (h : (lookupLabel t a).isSome) :
    (lookupLabel (insertLabel t b) a).isSome := by
  obtain ⟨s, hs⟩ := Option.isSome_iff_exists.mp h
  rw [lookupLabel_insertLabel_preserve t b a s hs]; rfl

theorem insertLabel_of_isSome (t : LabelTable) (a : Nat)
    (h : (lookupLabel t a).isSome) : insertLabel t a = t := by
  simp [insertLabel, h]

theorem lookupLabel_insertLabel_cases (t : LabelTable) (b a : Nat)
    (h : (lookupLabel (insertLabel t b) a).isSome) :
    a = b ∨ (lookupLabel t a).isSome := by
  by_cases hb : (lookupLabel t b).isSome
  · right; rw [insertLabel_of_isSome t b hb] at h; exact h
  · by_cases hab : a = b
    · left; exact hab
    · right
      rw [insertLabel, if_neg hb] at h
      simpa [lookupLabel, hab] using h

theorem lookupLabel_eq_none_iff (t : LabelTable) (a : Nat) :
    lookupLabel t a = none ↔ a ∉ t.map Prod.fst := by
  induction t with
  | nil => simp [lookupLabel]
  | cons p t ih =>
    obtain ⟨b, s⟩ := p
    by_cases hab : a = b
    · simp [lookupLabel, hab]
    · simp [lookupLabel, hab, ih]

/-- C9: label-table insertion is idempotent: inserting at an address that
already has a label leaves the table unchanged (so inserting twice equals
inserting once), and insertion preserves the key-uniqueness invariant, hence
the table never holds two labels for one address. -/
theorem c9_insert_idempotent (t : LabelTable) (a : Nat) :
    ((lookupLabel t a).isSome → insertLabel t a = t)
  ∧ insertLabel (insertLabel t a) a = insertLabel t a
  ∧ ((t.map Prod.fst).Nodup → ((insertLabel t a).map Prod.fst).Nodup) := by
  refine ⟨insertLabel_of_isSome t a, ?_, ?_⟩
  · exact insertLabel_of_isSome _ a (lookupLabel_insertLabel_self t a)
  · intro hnd
    by_cases h : (lookupLabel t a).isSome
    · rw [insertLabel_of_isSome t a h]; exact hnd
    · rw [insertLabel, if_neg h]
      refine List.Nodup.cons ?_ hnd
      have hn : lookupLabel t a = none := Option.not_isSome_iff_eq_none.mp h
      exact (lookupLabel_eq_none_iff t a).mp hn

/-- Witness for C9 at a concrete table: address 5 already has a label, so
insertion leaves the table unchanged and keeps keys unique. -/
theorem c9_insert_idempotent_witness :
    (lookupLabel [(5, "x")] 5).isSome
  ∧ insertLabel [(5, "x")] 5 = [(5, "x")]
  ∧ (([(5, "x")] : LabelTable).map Prod.fst).Nodup
  ∧ ((insertLabel [(5, "x")] 5).map Prod.fst).Nodup :=
  ⟨by decide, (c9_insert_idempotent [(5, "x")] 5).1 (by decide), by decide,
    (c9_insert_idempotent [(5, "x")] 5).2.2 (by decide)⟩

/-- C1: every operand-printing hook resolves an address with the fixed
priority local label → section symbol → image symbol → default numeric
rendering.  In particular, an address that is a key of the label table is
always rendered as its label name (the displacement hook adds its `+`
punctuation), never as a symbol name, even when an image symbol exists at the
same address.  The remaining conjuncts pin down the section-symbol,
image-symbol and default cases of the absolute-address hook. -/
theorem c1_resolution_order (env : ExeEnv) (labels : LabelTable) (a : Nat) :
    (∀ nm, lookupLabel labels a = some nm →
      UnasmFormatterPrintAddressAbsolute env labels a = .text nm
      ∧ UnasmFormatterPrintAddressRelative env labels a = .text nm
      ∧ UnasmFormatterPrintIMM env labels a = .text nm
      ∧ UnasmFormatterPrintDISP env labels a = .text ("+" ++ nm)
      ∧ UnasmFormatterFormatOperandPTR env labels a = .text nm)
  ∧ (lookupLabel labels a = none →
      env.sectionAddress ≤ a → a ≤ env.sectionEnd →
      UnasmFormatterPrintAddressAbsolute env labels a =
        (if (env.getSymbol a).name ≠ "" ∧ (env.getSymbol a).value = a
          then .text (env.getSymbol a).name
          else .text ("sub_" ++ hexStr a)))
  ∧ (lookupLabel labels a = none →
      ¬(env.sectionAddress ≤ a ∧ a ≤ env.sectionEnd) →
      env.baseAddress ≤ a → a ≤ env.endAddress →
      UnasmFormatterPrintAddressAbsolute env labels a =
        (if (env.getSymbol a).name ≠ "" ∧ (env.getSymbol a).value = a
          then .text (env.getSymbol a).name
          else .text ("off_" ++ hexStr a)))
  ∧ (lookupLabel labels a = none →
      ¬(env.sectionAddress ≤ a ∧ a ≤ env.sectionEnd) →
      ¬(env.baseAddress ≤ a ∧ a ≤ env.endAddress) →
      UnasmFormatterPrintAddressAbsolute env labels a = .default) := by
  refine ⟨?_, ?_, ?_, ?_⟩
  · intro nm h
    refine ⟨?_, ?_, ?_, ?_, ?_⟩ <;>
      simp [UnasmFormatterPrintAddressAbsolute,
        UnasmFormatterPrintAddressRelative, UnasmFormatterPrintIMM,
        UnasmFormatterPrintDISP, UnasmFormatterFormatOperandPTR, h]
  · intro h h1 h2
    simp [UnasmFormatterPrintAddressAbsolute, h, h1, h2]
  · intro h h1 h2 h3
    simp only [UnasmFormatterPrintAddressAbsolute, h, if_neg h1,
      if_pos (And.intro h2 h3)]
  · intro h h1 h2
    simp only [UnasmFormatterPrintAddressAbsolute, h, if_neg h1, if_neg h2]

/-- Witness for C1: address 5000 is both a local label (`loc`) and the exact
address of image symbol `sym`; every hook emits the label text. -/
theorem c1_resolution_order_witness :
    lookupLabel [(5000, "loc")] 5000 = some "loc"
  ∧ (envC1.getSymbol 5000).name = "sym" ∧ (envC1.getSymbol 5000).value = 5000
  ∧ UnasmFormatterPrintAddressAbsolute envC1 [(5000, "loc")] 5000 = .text "loc"
  ∧ UnasmFormatterPrintAddressRelative envC1 [(5000, "loc")] 5000 = .text "loc"
  ∧ UnasmFormatterPrintIMM envC1 [(5000, "loc")] 5000 = .text "loc"
  ∧ UnasmFormatterPrintDISP envC1 [(5000, "loc")] 5000 = .text "+loc"
  ∧ UnasmFormatterFormatOperandPTR envC1 [(5000, "loc")] 5000 = .text "loc" :=
  ⟨by decide, by decide, by decide,
    ((c1_resolution_order envC1 [(5000, "loc")] 5000).1 "loc" (by decide)).1,
    ((c1_resolution_order envC1 [(5000, "loc")] 5000).1 "loc" (by decide)).2.1,
    ((c1_resolution_order envC1 [(5000, "loc")] 5000).1 "loc" (by decide)).2.2.1,
    ((c1_resolution_order envC1 [(5000, "loc")] 5000).1 "loc" (by decide)).2.2.2.1,
    ((c1_resolution_order envC1 [(5000, "loc")] 5000).1 "loc" (by decide)).2.2.2.2⟩

/-- C4 (code bug): at displacement address 4660, inside the section, with no
exact symbol but nearest-preceding symbol `bar` at 4608, the source formats
with `"+%s+0x%"` (function.cpp line 210) — the conversion for the difference
is missing, so the emitted text is not `+bar+0x34` as the claim (and the
sibling image branch, line 227) require. -/
theorem c4_disp_missing_conversion :
    UnasmFormatterPrintDISP envC4 [] 4660 = .text "+bar+0x%"
  ∧ UnasmFormatterPrintDISP envC4 [] 4660
      ≠ .text ("+bar+0x" ++ hexStr (4660 - 4608))
  ∧ (envC4.getSymbol 4660).name ≠ "" ∧ (envC4.getSymbol 4660).value < 4660 := by
  refine ⟨by decide, by decide, by decide, by decide⟩

/-- C5 counterexample: far-pointer address 9000 lies inside the image
`[1024, 102400]`, outside the section `[4096, 8191]`, has no label and no
exact symbol, yet the hook emits `unk_2328`, not `off_2328` as claimed
(function.cpp line 274 uses the format string `"unk_%x"`). -/
theorem c5_ptr_counterexample :
    lookupLabel [] 9000 = none
  ∧ ¬(envC5.sectionAddress ≤ 9000 ∧ 9000 ≤ envC5.sectionEnd)
  ∧ (envC5.baseAddress ≤ 9000 ∧ 9000 ≤ envC5.endAddress)
  ∧ (envC5.getSymbol 9000).name = ""
  ∧ UnasmFormatterFormatOperandPTR envC5 [] 9000 = .text ("unk_" ++ hexStr 9000)
  ∧ UnasmFormatterFormatOperandPTR envC5 [] 9000
      ≠ .text ("off_" ++ hexStr 9000) := by
  refine ⟨by decide, by decide, by decide, by decide, by decide, by decide⟩

/-- C5 (amended): for every far-pointer operand whose address lies within
`[imageBase, imageEnd]` but outside the function's own section and has no
exact-match symbol, the emitted text is `"unk_" + hex(address)`; the
far-pointer context applies the same four-way resolution as the other
contexts, with a different fallback prefix. -/
theorem c5_ptr_unk_fallback (env : ExeEnv) (labels : LabelTable) (a : Nat)
    (h1 : lookupLabel labels a = none)
    (h2 : ¬(env.sectionAddress ≤ a ∧ a ≤ env.sectionEnd))
    (h3 : env.baseAddress ≤ a) (h4 : a ≤ env.endAddress)
    (h5 : ¬((env.getSymbol a).name ≠ "" ∧ (env.getSymbol a).value = a)) :
    UnasmFormatterFormatOperandPTR env labels a = .text ("unk_" ++ hexStr a) := by
  simp only [UnasmFormatterFormatOperandPTR, h1, if_neg h2,
    if_pos (And.intro h3 h4), if_neg h5]

/-- Witness for the amended C5 at the concrete far-pointer address 9000. -/
theorem c5_ptr_unk_fallback_witness :
    lookupLabel [] 9000 = none
  ∧ ¬(envC5.sectionAddress ≤ 9000 ∧ 9000 ≤ envC5.sectionEnd)
  ∧ (envC5.baseAddress ≤ 9000 ∧ 9000 ≤ envC5.endAddress)
  ∧ ¬((envC5.getSymbol 9000).name ≠ "" ∧ (envC5.getSymbol 9000).value = 9000)
  ∧ UnasmFormatterFormatOperandPTR envC5 [] 9000
      = .text ("unk_" ++ hexStr 9000) :=
  ⟨by decide, by decide, by decide, by decide,
    c5_ptr_unk_fallback envC5 [] 9000 (by decide) (by decide) (by decide)
      (by decide) (by decide)⟩

/-- C7: a zero-size section makes `disassemble` a no-op: the label table and
the disassembly text are returned unchanged. -/
theorem c7_zero_size_section_noop (e : DisasmEnv) (startA endA fuel jfuel : Nat)
    (labels : LabelTable) (text : List String) (h : e.sectionSize = 0) :
    disassemble e startA endA fuel jfuel labels text = (labels, text) := by
  simp [disassemble, h]

/-- Witness for C7 at a concrete zero-size-section environment. -/
theorem c7_zero_size_section_noop_witness :
    envC7.sectionSize = 0
  ∧ disassemble envC7 0 10 5 5 [] [] = ([], []) :=
  ⟨rfl, c7_zero_size_section_noop envC7 0 10 5 5 [] [] rfl⟩

/-- C2: the jump-table scenario.  The function body ends in an unconditional
`jmp` (decoded at offset `off0`, length `len`, no relative immediate),
followed by four little-endian words `w0 w1 w2 w3` of which the first three
are addresses inside `[startA, endA]` and the fourth is not.  Pass 1 inserts
exactly 4 labels — one at the anchor `r` (the runtime address just past the
`jmp`) and one per in-range word — and pass 2 emits the anchor label line and
exactly three `    .int <labelname>` lines, stopping at the first
out-of-range word (nothing is scanned past offset `off + 12`). -/
theorem c2_jump_table_scenario (decode : Nat → Option Ins)
    (fmt : Nat → LabelTable → String) (bytes : Nat → Nat)
    (startA endA endOff jfuel fuel off0 r0 len off r w0 w1 w2 w3 : Nat)
    (L : LabelTable) (lines0 : List String)
    (hdec : decode off0 = some ⟨len, false, 0, true⟩)
    (hoff : off = off0 + len) (hrr : r = r0 + len)
    (hstop : decode (off + 12) = none) (hle : off0 ≤ endOff)
    (h0 : get_le32 bytes off = w0) (h1 : get_le32 bytes (off + 4) = w1)
    (h2 : get_le32 bytes (off + 8) = w2) (h3 : get_le32 bytes (off + 12) = w3)
    (hw0 : startA ≤ w0 ∧ w0 ≤ endA) (hw1 : startA ≤ w1 ∧ w1 ≤ endA)
    (hw2 : startA ≤ w2 ∧ w2 ≤ endA) (hw3 : ¬(startA ≤ w3 ∧ w3 ≤ endA))
    (hanch : startA ≤ r ∧ r ≤ endA)
    (hnr : lookupLabel L r = none) (hnw0 : lookupLabel L w0 = none)
    (hnw1 : lookupLabel L w1 = none) (hnw2 : lookupLabel L w2 = none)
    (hnr0 : lookupLabel L r0 = none)
    (hd1 : r ≠ w0) (hd2 : r ≠ w1) (hd3 : r ≠ w2)
    (hd4 : w0 ≠ w1) (hd5 : w0 ≠ w2) (hd6 : w1 ≠ w2)
    (hd7 : r0 ≠ r) (hd8 : r0 ≠ w0) (hd9 : r0 ≠ w1) (hd10 : r0 ≠ w2) :
    disassemblePass1 decode bytes startA endA endOff (jfuel + 4) (fuel + 2)
        off0 r0 L
      = (w2, labelName w2) :: (w1, labelName w1) :: (w0, labelName w0)
        :: (r, labelName r) :: L
  ∧ ((w2, labelName w2) :: (w1, labelName w1) :: (w0, labelName w0)
        :: (r, labelName r) :: L).length = L.length + 4
  ∧ disassemblePass2 decode fmt bytes startA endA endOff (jfuel + 4) (fuel + 2)
        off0 r0
        ((w2, labelName w2) :: (w1, labelName w1) :: (w0, labelName w0)
          :: (r, labelName r) :: L) lines0
      = (lines0
          ++ ["    "
                ++ fmt off0 ((w2, labelName w2) :: (w1, labelName w1)
                  :: (w0, labelName w0) :: (r, labelName r) :: L) ++ "\n",
              labelName r ++ ":\n",
              "    .int " ++ labelName w0 ++ "\n",
              "    .int " ++ labelName w1 ++ "\n",
              "    .int " ++ labelName w2 ++ "\n"],
          (w2, labelName w2) :: (w1, labelName w1) :: (w0, labelName w0)
            :: (r, labelName r) :: L) := by
  -- abbreviations for the intermediate and final label tables
  set T1 : LabelTable := (r, labelName r) :: L with hT1
  set T2 : LabelTable := (w0, labelName w0) :: T1 with hT2
  set T3 : LabelTable := (w1, labelName w1) :: T2 with hT3
  set T4 : LabelTable := (w2, labelName w2) :: T3 with hT4
  -- the insertion chain of the pass-1 scan
  have i1 : insertLabel L r = T1 := by simp [insertLabel, hnr, hT1]
  have i2 : insertLabel T1 w0 = T2 := by
    simp [insertLabel, hT1, hT2, lookupLabel, Ne.symm hd1, hnw0]
  have i3 : insertLabel T2 w1 = T3 := by
    simp [insertLabel, hT1, hT2, hT3, lookupLabel, Ne.symm hd2, Ne.symm hd4,
      hnw1]
  have i4 : insertLabel T3 w2 = T4 := by
    simp [insertLabel, hT1, hT2, hT3, hT4, lookupLabel, Ne.symm hd3,
      Ne.symm hd5, Ne.symm hd6, hnw2]
  -- lookups in the final table, used by the pass-2 scan
  have lr0 : lookupLabel T4 r0 = none := by
    simp [hT1, hT2, hT3, hT4, lookupLabel, hd7, hd8, hd9, hd10, hnr0]
  have lr : lookupLabel T4 r = some (labelName r) := by
    simp [hT1, hT2, hT3, hT4, lookupLabel, hd1, hd2, hd3]
  have lw0 : lookupLabel T4 w0 = some (labelName w0) := by
    simp [hT1, hT2, hT3, hT4, lookupLabel, hd4, hd5]
  have lw1 : lookupLabel T4 w1 = some (labelName w1) := by
    simp [hT1, hT2, hT3, hT4, lookupLabel, hd6]
  have lw2 : lookupLabel T4 w2 = some (labelName w2) := by
    simp [hT1, hT2, hT3, hT4, lookupLabel]
  have e48 : off + 4 + 4 = off + 8 := by omega
  have e812 : off + 8 + 4 = off + 12 := by omega
  have f48 : r + 4 + 4 = r + 8 := by omega
  have f812 : r + 8 + 4 = r + 12 := by omega
  -- the whole pass-1 jump-table scan: three in-range words, then the stop
  have s11 : scanJumpTablePass1 startA endA bytes (jfuel + 4) off r false L
      = (T4, off + 12, r + 12) := by
    rw [show jfuel + 4 = jfuel + 1 + 1 + 1 + 1 from rfl]
    simp [scanJumpTablePass1, h0, h1, h2, h3, e48, e812, f48, f812,
      hw0.1, hw0.2, hw1.1, hw1.2, hw2.1, hw2.2, hw3, hanch.1, hanch.2,
      i1, i2, i3, i4]
  -- the whole pass-2 jump-table scan, generalized over the accumulated lines
  have t11 : ∀ ls, scanJumpTablePass2 startA endA bytes (jfuel + 4) off r
      false T4 ls
      = (ls ++ [labelName r ++ ":\n",
          "    .int " ++ labelName w0 ++ "\n",
          "    .int " ++ labelName w1 ++ "\n",
          "    .int " ++ labelName w2 ++ "\n"], T4, off + 12, r + 12) := by
    intro ls
    rw [show jfuel + 4 = jfuel + 1 + 1 + 1 + 1 from rfl]
    simp [scanJumpTablePass2, mapIndex, h0, h1, h2, h3, e48, e812, f48, f812,
      hw0.1, hw0.2, hw1.1, hw1.2, hw2.1, hw2.2, hw3, lr, lw0, lw1, lw2,
      List.append_assoc]
  refine ⟨?_, by simp [hT1, hT2, hT3, hT4], ?_⟩
  · rw [show fuel + 2 = fuel + 1 + 1 from rfl]
    simp [disassemblePass1, hdec, hle, hstop, ← hoff, ← hrr, s11]
  · rw [show fuel + 2 = fuel + 1 + 1 from rfl]
    simp [disassemblePass2, hdec, hle, hstop, lr0, ← hoff, ← hrr, t11,
      List.append_assoc]

/-- Witness for C2: a two-byte `jmp` at offset 0 of function
`[4096, 4128]`, followed by the words 4100, 4104, 4108 (in range) and 0
(out of range).  Pass 1 inserts the anchor label 4098 plus the three targets;
pass 2 emits the instruction line, the anchor line and exactly three `.int`
lines. -/
theorem c2_jump_table_scenario_witness :
    decodeW2 0 = some ⟨2, false, 0, true⟩
  ∧ decodeW2 14 = none
  ∧ get_le32 bytesW 2 = 4100 ∧ get_le32 bytesW 6 = 4104
  ∧ get_le32 bytesW 10 = 4108 ∧ get_le32 bytesW 14 = 0
  ∧ disassemblePass1 decodeW2 bytesW 4096 4128 32 4 2 0 4096 []
      = [(4108, labelName 4108), (4104, labelName 4104), (4100, labelName 4100),
          (4098, labelName 4098)]
  ∧ disassemblePass2 decodeW2 fmtW bytesW 4096 4128 32 4 2 0 4096
      [(4108, labelName 4108), (4104, labelName 4104), (4100, labelName 4100),
        (4098, labelName 4098)] []
      = (["    jmp eax\n", labelName 4098 ++ ":\n",
          "    .int " ++ labelName 4100 ++ "\n",
          "    .int " ++ labelName 4104 ++ "\n",
          "    .int " ++ labelName 4108 ++ "\n"],
          [(4108, labelName 4108), (4104, labelName 4104),
            (4100, labelName 4100), (4098, labelName 4098)]) := by
  have H := c2_jump_table_scenario decodeW2 fmtW bytesW 4096 4128 32 0 0 0 4096
    2 2 4098 4100 4104 4108 0 [] [] rfl rfl rfl rfl (by decide) rfl rfl rfl rfl
    (by decide) (by decide) (by decide) (by decide) (by decide) rfl rfl rfl rfl
    rfl (by decide) (by decide) (by decide) (by decide) (by decide) (by decide)
    (by decide) (by decide) (by decide) (by decide)
  exact ⟨rfl, rfl, rfl, rfl, rfl, rfl, H.1, H.2.2⟩

theorem scanJumpTablePass1_lookup_range (startA endA : Nat) (bytes : Nat → Nat) :
    ∀ (f o ru : Nat) (t : Bool) (L : LabelTable) (a : Nat),
      (lookupLabel (scanJumpTablePass1 startA endA bytes f o ru t L).1 a).isSome →
      (lookupLabel L a).isSome ∨ (startA ≤ a ∧ a ≤ endA) := by
  intro f
  induction f with
  | zero => intro o ru t L a h; exact Or.inl h
  | succ n ih =>
    intro o ru t L a h
    simp only [scanJumpTablePass1] at h
    by_cases hc : startA ≤ get_le32 bytes o ∧ get_le32 bytes o ≤ endA
    · rw [if_pos hc] at h
      rcases ih (o + 4) (ru + 4) true _ a h with h' | hr
      · rcases lookupLabel_insertLabel_cases _ _ _ h' with rfl | h''
        · exact Or.inr hc
        · cases t with
          | true => exact Or.inl (by simpa using h'')
          | false =>
            simp only [Bool.not_false, if_true] at h''
            by_cases ha : startA ≤ ru ∧ ru ≤ endA
            · rw [if_pos ha] at h''
              rcases lookupLabel_insertLabel_cases _ _ _ h'' with rfl | h3
              · exact Or.inr ha
              · exact Or.inl h3
            · rw [if_neg ha] at h''; exact Or.inl h''
      · exact Or.inr hr
    · rw [if_neg hc] at h; exact Or.inl h

theorem disassemblePass1_lookup_range (decode : Nat → Option Ins)
    (bytes : Nat → Nat) (startA endA endOff jfuel : Nat) :
    ∀ (fuel o ru : Nat) (L : LabelTable) (a : Nat),
      (lookupLabel
        (disassemblePass1 decode bytes startA endA endOff jfuel fuel o ru L)
        a).isSome →
      (lookupLabel L a).isSome ∨ (startA ≤ a ∧ a ≤ endA) := by
  intro fuel
  induction fuel with
  | zero => intro o ru L a h; exact Or.inl h
  | succ n ih =>
    intro o ru L a h
    simp only [disassemblePass1] at h
    cases hd : decode o with
    | none => rw [hd] at h; exact Or.inl h
    | some ins =>
      rw [hd] at h
      dsimp only at h
      by_cases hoe : o ≤ endOff
      · rw [if_pos hoe] at h
        have hlab : ∀ (M : LabelTable), M = (if ins.isRelative then
              if startA ≤ ins.relTarget ∧ ins.relTarget ≤ endA then
                insertLabel L ins.relTarget
              else L
            else L) →
            (lookupLabel M a).isSome →
            (lookupLabel L a).isSome ∨ (startA ≤ a ∧ a ≤ endA) := by
          intro M hM h1
          subst hM
          by_cases hrel : ins.isRelative = true
          · rw [if_pos hrel] at h1
            by_cases htr : startA ≤ ins.relTarget ∧ ins.relTarget ≤ endA
            · rw [if_pos htr] at h1
              rcases lookupLabel_insertLabel_cases _ _ _ h1 with rfl | h2
              · exact Or.inr htr
              · exact Or.inl h2
            · rw [if_neg htr] at h1; exact Or.inl h1
          · rw [if_neg hrel] at h1; exact Or.inl h1
        by_cases hj : ins.isNopOrJmp = true
        · rw [if_pos hj] at h
          rcases ih _ _ _ a h with h1 | hr
          · rcases scanJumpTablePass1_lookup_range startA endA bytes _ _ _ _ _
              a h1 with h2 | hr
            · exact hlab _ rfl h2
            · exact Or.inr hr
          · exact Or.inr hr
        · rw [if_neg hj] at h
          rcases ih _ _ _ a h with h1 | hr
          · exact hlab _ rfl h1
          · exact Or.inr hr
      · rw [if_neg hoe] at h; exact Or.inl h

/-- C3: every address inserted into the label table during pass 1 — from a
relative-branch target, a jump-table anchor, or a jump-table slot value —
lies within `[startA, endA]`: any address found in the resulting table was
either already present before the pass or is in range. -/
theorem c3_pass1_labels_in_range (decode : Nat → Option Ins)
    (bytes : Nat → Nat) (startA endA endOff jfuel fuel o ru : Nat)
    (L : LabelTable) (a : Nat)
    (h : (lookupLabel
      (disassemblePass1 decode bytes startA endA endOff jfuel fuel o ru L)
      a).isSome) :
    (lookupLabel L a).isSome ∨ (startA ≤ a ∧ a ≤ endA) :=
  disassemblePass1_lookup_range decode bytes startA endA endOff jfuel
    fuel o ru L a h

/-- Witness for C3: in the concrete jump-table run, address 4100 was
inserted by pass 1 and indeed lies within `[4096, 4128]`. -/
theorem c3_pass1_labels_in_range_witness :
    (lookupLabel (disassemblePass1 decodeW2 bytesW 4096 4128 32 4 2 0 4096 [])
      4100).isSome
  ∧ ((lookupLabel ([] : LabelTable) 4100).isSome
      ∨ (4096 ≤ 4100 ∧ 4100 ≤ 4128)) :=
  ⟨by decide, c3_pass1_labels_in_range decodeW2 bytesW 4096 4128 32 4 2 0 4096
    [] 4100 (by decide)⟩

theorem mapIndex_snd_of_isSome (t : LabelTable) (a : Nat)
    (h : (lookupLabel t a).isSome) : (mapIndex t a).2 = t := by
  obtain ⟨s, hs⟩ := Option.isSome_iff_exists.mp h
  simp [mapIndex, hs]

theorem scanJumpTablePass2_labels (startA endA : Nat) (bytes : Nat → Nat) :
    ∀ (f o ru : Nat) (t : Bool) (L : LabelTable) (ls : List String),
      (scanJumpTablePass2 startA endA bytes f o ru t L ls).2.1 = L := by
  intro f
  induction f with
  | zero => intro o ru t L ls; rfl
  | succ n ih =>
    intro o ru t L ls
    simp only [scanJumpTablePass2]
    by_cases hc : startA ≤ get_le32 bytes o ∧ get_le32 bytes o ≤ endA
    · rw [if_pos hc, ih]
      cases t with
      | true =>
        by_cases h2 : (lookupLabel L (get_le32 bytes o)).isSome
        · simp [h2, mapIndex_snd_of_isSome _ _ h2]
        · simp [h2]
      | false =>
        by_cases h1 : (lookupLabel L ru).isSome
        · have e1 : (mapIndex L ru).2 = L := mapIndex_snd_of_isSome _ _ h1
          by_cases h2 : (lookupLabel L (get_le32 bytes o)).isSome
          · simp [h1, h2, e1, mapIndex_snd_of_isSome _ _ h2]
          · simp [h1, h2, e1]
        · by_cases h2 : (lookupLabel L (get_le32 bytes o)).isSome
          · simp [h1, h2, mapIndex_snd_of_isSome _ _ h2]
          · simp [h1, h2]
    · rw [if_neg hc]

theorem scanJumpTablePass2_lines_mono (startA endA : Nat) (bytes : Nat → Nat) :
    ∀ (f o ru : Nat) (t : Bool) (L : LabelTable) (ls ls' : List String),
      scanJumpTablePass2 startA endA bytes f o ru t L (ls ++ ls')
        = (ls ++ (scanJumpTablePass2 startA endA bytes f o ru t L ls').1,
            (scanJumpTablePass2 startA endA bytes f o ru t L ls').2) := by
  intro f
  induction f with
  | zero => intro o ru t L ls ls'; simp [scanJumpTablePass2]
  | succ n ih =>
    intro o ru t L ls ls'
    by_cases hc : startA ≤ get_le32 bytes o ∧ get_le32 bytes o ≤ endA
    · cases t with
      | true =>
        by_cases h2 : (lookupLabel L (get_le32 bytes o)).isSome
        · obtain ⟨s, hs⟩ := Option.isSome_iff_exists.mp h2
          simp only [scanJumpTablePass2]
          simp [hc, hs, mapIndex]
          rw [ih]
        · simp only [scanJumpTablePass2]
          simp [hc, Option.not_isSome_iff_eq_none.mp h2, mapIndex]
          rw [ih]
      | false =>
        by_cases h1 : (lookupLabel L ru).isSome
        · obtain ⟨s1, hs1⟩ := Option.isSome_iff_exists.mp h1
          by_cases h2 : (lookupLabel L (get_le32 bytes o)).isSome
          · obtain ⟨s2, hs2⟩ := Option.isSome_iff_exists.mp h2
            simp only [scanJumpTablePass2]
            simp [hc, hs1, hs2, mapIndex]
            rw [ih]
          · simp only [scanJumpTablePass2]
            simp [hc, hs1, Option.not_isSome_iff_eq_none.mp h2, mapIndex]
            rw [ih]
        · by_cases h2 : (lookupLabel L (get_le32 bytes o)).isSome
          · obtain ⟨s2, hs2⟩ := Option.isSome_iff_exists.mp h2
            simp only [scanJumpTablePass2]
            simp [hc, Option.not_isSome_iff_eq_none.mp h1, hs2, mapIndex]
            rw [ih]
          · simp only [scanJumpTablePass2]
            simp [hc, Option.not_isSome_iff_eq_none.mp h1,
              Option.not_isSome_iff_eq_none.mp h2, mapIndex]
            rw [ih]
    · simp only [scanJumpTablePass2]
      simp [hc]

theorem scanJumpTablePass2_chunks (startA endA : Nat) (bytes : Nat → Nat) :
    ∀ (f o ru : Nat) (t : Bool) (L : LabelTable) (ls : List String)
      (c : String), c ∈ (scanJumpTablePass2 startA endA bytes f o ru t L ls).1 →
      c ∈ ls ∨ ∃ s, c = s ++ "\n" := by
  intro f
  induction f with
  | zero => intro o ru t L ls c hb; exact Or.inl hb
  | succ n ih =>
    intro o ru t L ls c hb
    by_cases hc : startA ≤ get_le32 bytes o ∧ get_le32 bytes o ≤ endA
    · cases t with
      | true =>
        by_cases h2 : (lookupLabel L (get_le32 bytes o)).isSome
        · obtain ⟨s, hs⟩ := Option.isSome_iff_exists.mp h2
          simp only [scanJumpTablePass2] at hb
          simp [hc, hs, mapIndex] at hb
          rcases ih _ _ _ _ _ _ hb with h | h
          · rcases List.mem_append.mp h with h | h
            · exact Or.inl h
            · simp at h
              exact Or.inr ⟨"    .int " ++ s, by rw [h]⟩
          · exact Or.inr h
        · simp only [scanJumpTablePass2] at hb
          simp [hc, Option.not_isSome_iff_eq_none.mp h2, mapIndex] at hb
          exact ih _ _ _ _ _ _ hb
      | false =>
        by_cases h1 : (lookupLabel L ru).isSome
        · obtain ⟨s1, hs1⟩ := Option.isSome_iff_exists.mp h1
          by_cases h2 : (lookupLabel L (get_le32 bytes o)).isSome
          · obtain ⟨s2, hs2⟩ := Option.isSome_iff_exists.mp h2
            simp only [scanJumpTablePass2] at hb
            simp [hc, hs1, hs2, mapIndex] at hb
            rcases ih _ _ _ _ _ _ hb with h | h
            · rcases List.mem_append.mp h with h | h
              · exact Or.inl h
              · simp at h
                rcases h with h | h
                · exact Or.inr ⟨s1 ++ ":", by rw [h, String.append_assoc]; rfl⟩
                · exact Or.inr ⟨"    .int " ++ s2, by rw [h]⟩
            · exact Or.inr h
          · simp only [scanJumpTablePass2] at hb
            simp [hc, hs1, Option.not_isSome_iff_eq_none.mp h2, mapIndex] at hb
            rcases ih _ _ _ _ _ _ hb with h | h
            · rcases List.mem_append.mp h with h | h
              · exact Or.inl h
              · simp at h
                exact Or.inr ⟨s1 ++ ":", by rw [h, String.append_assoc]; rfl⟩
            · exact Or.inr h
        · by_cases h2 : (lookupLabel L (get_le32 bytes o)).isSome
          · obtain ⟨s2, hs2⟩ := Option.isSome_iff_exists.mp h2
            simp only [scanJumpTablePass2] at hb
            simp [hc, Option.not_isSome_iff_eq_none.mp h1, hs2, mapIndex] at hb
            rcases ih _ _ _ _ _ _ hb with h | h
            · rcases List.mem_append.mp h with h | h
              · exact Or.inl h
              · simp at h
                exact Or.inr ⟨"    .int " ++ s2, by rw [h]⟩
            · exact Or.inr h
          · simp only [scanJumpTablePass2] at hb
            simp [hc, Option.not_isSome_iff_eq_none.mp h1,
              Option.not_isSome_iff_eq_none.mp h2, mapIndex] at hb
            exact ih _ _ _ _ _ _ hb
    · simp only [scanJumpTablePass2] at hb
      simp [hc] at hb
      exact Or.inl hb

theorem disassemblePass2_labels (decode : Nat → Option Ins)
    (fmt : Nat → LabelTable → String) (bytes : Nat → Nat)
    (startA endA endOff jfuel : Nat) :
    ∀ (fuel o ru : Nat) (L : LabelTable) (ls : List String),
      (disassemblePass2 decode fmt bytes startA endA endOff jfuel
        fuel o ru L ls).2 = L := by
  intro fuel
  induction fuel with
  | zero => intro o ru L ls; rfl
  | succ n ih =>
    intro o ru L ls
    simp only [disassemblePass2]
    cases hd : decode o with
    | none => rfl
    | some ins =>
      dsimp only
      by_cases hoe : o ≤ endOff
      · rw [if_pos hoe]
        by_cases hl : (lookupLabel L ru).isSome
        · obtain ⟨s, hs⟩ := Option.isSome_iff_exists.mp hl
          by_cases hj : ins.isNopOrJmp = true
          · simp [hj, hs, mapIndex, ih, scanJumpTablePass2_labels]
          · simp [hj, hs, mapIndex, ih]
        · have hn := Option.not_isSome_iff_eq_none.mp hl
          by_cases hj : ins.isNopOrJmp = true
          · simp [hj, hn, ih, scanJumpTablePass2_labels]
          · simp [hj, hn, ih]
      · rw [if_neg hoe]

theorem disassemblePass2_lines_mono (decode : Nat → Option Ins)
    (fmt : Nat → LabelTable → String) (bytes : Nat → Nat)
    (startA endA endOff jfuel : Nat) :
    ∀ (fuel o ru : Nat) (L : LabelTable) (ls ls' : List String),
      disassemblePass2 decode fmt bytes startA endA endOff jfuel
          fuel o ru L (ls ++ ls')
        = (ls ++ (disassemblePass2 decode fmt bytes startA endA endOff jfuel
              fuel o ru L ls').1,
            (disassemblePass2 decode fmt bytes startA endA endOff jfuel
              fuel o ru L ls').2) := by
  intro fuel
  induction fuel with
  | zero => intro o ru L ls ls'; rfl
  | succ n ih =>
    intro o ru L ls ls'
    simp only [disassemblePass2]
    cases hd : decode o with
    | none => rfl
    | some ins =>
      dsimp only
      by_cases hoe : o ≤ endOff
      · rw [if_pos hoe, if_pos hoe]
        by_cases hl : (lookupLabel L ru).isSome
        · obtain ⟨s, hs⟩ := Option.isSome_iff_exists.mp hl
          by_cases hj : ins.isNopOrJmp = true
          · simp only [hj, hs, mapIndex, if_true]
            simp [scanJumpTablePass2_lines_mono, ih, List.append_assoc]
          · simp only [hj, hs, mapIndex]
            simp [ih, List.append_assoc]
        · have hn := Option.not_isSome_iff_eq_none.mp hl
          by_cases hj : ins.isNopOrJmp = true
          · simp only [hj, hn, mapIndex, if_true]
            simp [scanJumpTablePass2_lines_mono, ih, List.append_assoc]
          · simp only [hj, hn, mapIndex]
            simp [ih, List.append_assoc]
      · rw [if_neg hoe, if_neg hoe]

theorem disassemblePass2_chunks (decode : Nat → Option Ins)
    (fmt : Nat → LabelTable → String) (bytes : Nat → Nat)
    (startA endA endOff jfuel : Nat) :
    ∀ (fuel o ru : Nat) (L : LabelTable) (ls : List String) (c : String),
      c ∈ (disassemblePass2 decode fmt bytes startA endA endOff jfuel
        fuel o ru L ls).1 →
      c ∈ ls ∨ ∃ s, c = s ++ "\n" := by
  intro fuel
  induction fuel with
  | zero => intro o ru L ls c hb; exact Or.inl hb
  | succ n ih =>
    intro o ru L ls c hb
    simp only [disassemblePass2] at hb
    cases hd : decode o with
    | none => rw [hd] at hb; exact Or.inl hb
    | some ins =>
      rw [hd] at hb
      dsimp only at hb
      by_cases hoe : o ≤ endOff
      · rw [if_pos hoe] at hb
        by_cases hl : (lookupLabel L ru).isSome
        · obtain ⟨s, hs⟩ := Option.isSome_iff_exists.mp hl
          by_cases hj : ins.isNopOrJmp = true
          · simp [hj, hs, mapIndex] at hb
            rcases ih _ _ _ _ _ hb with h | h
            · rcases scanJumpTablePass2_chunks _ _ _ _ _ _ _ _ _ _ h with
                h1 | h1
              · rcases List.mem_append.mp h1 with h2 | h2
                · exact Or.inl h2
                · simp at h2
                  rcases h2 with h3 | h3
                  · exact Or.inr ⟨s ++ ":", by rw [h3, String.append_assoc]; rfl⟩
                  · exact Or.inr ⟨"    " ++ fmt o L, by rw [h3]⟩
              · exact Or.inr h1
            · exact Or.inr h
          · simp [hj, hs, mapIndex] at hb
            rcases ih _ _ _ _ _ hb with h | h
            · rcases List.mem_append.mp h with h2 | h2
              · exact Or.inl h2
              · simp at h2
                rcases h2 with h3 | h3
                · exact Or.inr ⟨s ++ ":", by rw [h3, String.append_assoc]; rfl⟩
                · exact Or.inr ⟨"    " ++ fmt o L, by rw [h3]⟩
            · exact Or.inr h
        · have hn := Option.not_isSome_iff_eq_none.mp hl
          by_cases hj : ins.isNopOrJmp = true
          · simp [hj, hn, mapIndex] at hb
            rcases ih _ _ _ _ _ hb with h | h
            · rcases scanJumpTablePass2_chunks _ _ _ _ _ _ _ _ _ _ h with
                h1 | h1
              · rcases List.mem_append.mp h1 with h2 | h2
                · exact Or.inl h2
                · simp at h2
                  exact Or.inr ⟨"    " ++ fmt o L, by rw [h2]⟩
              · exact Or.inr h1
            · exact Or.inr h
          · simp [hj, hn, mapIndex] at hb
            rcases ih _ _ _ _ _ hb with h | h
            · rcases List.mem_append.mp h with h2 | h2
              · exact Or.inl h2
              · simp at h2
                exact Or.inr ⟨"    " ++ fmt o L, by rw [h2]⟩
            · exact Or.inr h
      · rw [if_neg hoe] at hb
        exact Or.inl hb

/-- C10: pass 2 never modifies the label table: any pass-2 run returns its
input label table unchanged (it only appends text chunks), so after a full
`disassemble` the final label table is exactly the one pass 1 produced. -/
theorem c10_pass2_labels_immutable (decode : Nat → Option Ins)
    (fmt : Nat → LabelTable → String) (bytes : Nat → Nat)
    (startA endA endOff jfuel fuel o ru : Nat) (L : LabelTable)
    (ls : List String) (e : DisasmEnv) (L0 : LabelTable) (t0 : List String) :
    (disassemblePass2 decode fmt bytes startA endA endOff jfuel
        fuel o ru L ls).2 = L
  ∧ (disassemblePass2 decode fmt bytes startA endA endOff jfuel
        fuel o ru L ls).1
      = ls ++ (disassemblePass2 decode fmt bytes startA endA endOff jfuel
          fuel o ru L []).1
  ∧ (disassemble e startA endA fuel jfuel L0 t0).1
      = (if e.sectionSize = 0 then L0
          else disassemblePass1 e.decode e.bytes startA endA
            (endA - e.sectionAddr) jfuel fuel (startA - e.sectionAddr)
            startA L0) := by
  refine ⟨disassemblePass2_labels decode fmt bytes startA endA endOff jfuel
    fuel o ru L ls, ?_, ?_⟩
  · have h := disassemblePass2_lines_mono decode fmt bytes startA endA endOff
      jfuel fuel o ru L ls []
    rw [List.append_nil] at h
    exact congrArg Prod.fst h
  · by_cases hz : e.sectionSize = 0
    · simp [disassemble, hz]
    · simp [disassemble, hz, disassemblePass2_labels]

/-- C6: pass 2 ends at the failing cursor position.  A failing decode
appends nothing and keeps the text produced so far; the text a pass-2 run
appends is independent of what was accumulated before it; every appended
chunk is a complete `\n`-terminated line (no partial or garbled trailing
line); and each successfully decoded instruction appends exactly its own
block — the optional label line followed by the indented instruction line. -/
theorem c6_decode_failure_truncation (decode : Nat → Option Ins)
    (fmt : Nat → LabelTable → String) (bytes : Nat → Nat)
    (startA endA endOff jfuel fuel o ru : Nat) (L : LabelTable)
    (ls : List String) :
    (decode o = none →
      disassemblePass2 decode fmt bytes startA endA endOff jfuel
        (fuel + 1) o ru L ls = (ls, L))
  ∧ (disassemblePass2 decode fmt bytes startA endA endOff jfuel
        fuel o ru L ls).1
      = ls ++ (disassemblePass2 decode fmt bytes startA endA endOff jfuel
          fuel o ru L []).1
  ∧ (∀ c ∈ (disassemblePass2 decode fmt bytes startA endA endOff jfuel
        fuel o ru L ls).1, c ∈ ls ∨ ∃ s, c = s ++ "\n")
  ∧ (∀ ins, decode o = some ins → o ≤ endOff → ins.isNopOrJmp = false →
      lookupLabel L ru = none →
      disassemblePass2 decode fmt bytes startA endA endOff jfuel
          (fuel + 1) o ru L ls
        = disassemblePass2 decode fmt bytes startA endA endOff jfuel
            fuel (o + ins.length) (ru + ins.length) L
            (ls ++ ["    " ++ fmt o L ++ "\n"]))
  ∧ (∀ ins nm, decode o = some ins → o ≤ endOff → ins.isNopOrJmp = false →
      lookupLabel L ru = some nm →
      disassemblePass2 decode fmt bytes startA endA endOff jfuel
          (fuel + 1) o ru L ls
        = disassemblePass2 decode fmt bytes startA endA endOff jfuel
            fuel (o + ins.length) (ru + ins.length) L
            (ls ++ [nm ++ ":\n", "    " ++ fmt o L ++ "\n"])) := by
  refine ⟨?_, ?_, ?_, ?_, ?_⟩
  · intro h
    simp [disassemblePass2, h]
  · have h := disassemblePass2_lines_mono decode fmt bytes startA endA endOff
      jfuel fuel o ru L ls []
    rw [List.append_nil] at h
    exact congrArg Prod.fst h
  · exact disassemblePass2_chunks decode fmt bytes startA endA endOff jfuel
      fuel o ru L ls
  · intro ins h hoe hj hn
    simp [disassemblePass2, h, hoe, hj, hn]
  · intro ins nm h hoe hj hs
    simp [disassemblePass2, h, hoe, hj, hs, mapIndex]

/-- Witness for C6: a failing decode at offset 5 appends nothing and keeps
the previously produced line, and a successfully decoded labelled non-jump
instruction at offset 0 appends exactly its label line and instruction
line. -/
theorem c6_decode_failure_truncation_witness :
    decodeW6 5 = none
  ∧ disassemblePass2 decodeW6 fmtW bytesW 0 10 10 2 1 5 5 [] ["a\n"]
      = (["a\n"], [])
  ∧ lookupLabel [(5, "lbl")] 5 = some "lbl"
  ∧ disassemblePass2 decodeW6 fmtW bytesW 0 10 10 2 1 0 5 [(5, "lbl")] []
      = disassemblePass2 decodeW6 fmtW bytesW 0 10 10 2 0 3 8 [(5, "lbl")]
          ["lbl" ++ ":\n", "    " ++ fmtW 0 [(5, "lbl")] ++ "\n"] :=
  ⟨rfl,
    (c6_decode_failure_truncation decodeW6 fmtW bytesW 0 10 10 2 0 5 5 []
      ["a\n"]).1 rfl,
    rfl,
    (c6_decode_failure_truncation decodeW6 fmtW bytesW 0 10 10 2 0 0 5
      [(5, "lbl")] []).2.2.2.2 ⟨3, false, 0, false⟩ "lbl" rfl (by decide)
      rfl rfl⟩

theorem scanJumpTablePass1_lookup_preserve (startA endA : Nat)
    (bytes : Nat → Nat) :
    ∀ (f o ru : Nat) (t : Bool) (L : LabelTable) (a : Nat) (s : String),
      lookupLabel L a = some s →
      lookupLabel (scanJumpTablePass1 startA endA bytes f o ru t L).1 a
        = some s := by
  intro f
  induction f with
  | zero => intro o ru t L a s h; exact h
  | succ n ih =>
    intro o ru t L a s h
    simp only [scanJumpTablePass1]
    by_cases hc : startA ≤ get_le32 bytes o ∧ get_le32 bytes o ≤ endA
    · rw [if_pos hc]
      apply ih
      apply lookupLabel_insertLabel_preserve
      cases t with
      | true => simpa using h
      | false =>
        simp only [Bool.not_false, if_true]
        by_cases ha : startA ≤ ru ∧ ru ≤ endA
        · rw [if_pos ha]; exact lookupLabel_insertLabel_preserve _ _ _ _ h
        · rw [if_neg ha]; exact h
    · rw [if_neg hc]; exact h

theorem scanJumpTablePass1_lookup_isSome_preserve (startA endA : Nat)
    (bytes : Nat → Nat) (f o ru : Nat) (t : Bool) (L : LabelTable) (a : Nat)
    (h : (lookupLabel L a).isSome) :
    (lookupLabel (scanJumpTablePass1 startA endA bytes f o ru t L).1 a).isSome := by
  obtain ⟨s, hs⟩ := Option.isSome_iff_exists.mp h
  rw [scanJumpTablePass1_lookup_preserve startA endA bytes f o ru t L a s hs]
  rfl

theorem scanJumpTablePass1_stable (startA endA : Nat) (bytes : Nat → Nat) :
    ∀ (f o ru : Nat) (t : Bool) (L M : LabelTable),
      (∀ a, (lookupLabel (scanJumpTablePass1 startA endA bytes f o ru t L).1
        a).isSome → (lookupLabel M a).isSome) →
      scanJumpTablePass1 startA endA bytes f o ru t M
        = (M, (scanJumpTablePass1 startA endA bytes f o ru t L).2) := by
  intro f
  induction f with
  | zero => intro o ru t L M h; rfl
  | succ n ih =>
    intro o ru t L M h
    by_cases hc : startA ≤ get_le32 bytes o ∧ get_le32 bytes o ≤ endA
    · have hL : scanJumpTablePass1 startA endA bytes (n + 1) o ru t L
          = scanJumpTablePass1 startA endA bytes n (o + 4) (ru + 4) true
              (insertLabel
                (if !t then
                  if startA ≤ ru ∧ ru ≤ endA then insertLabel L ru else L
                else L)
                (get_le32 bytes o)) := by
        simp only [scanJumpTablePass1]
        rw [if_pos hc]
      rw [hL] at h
      have hnextM : (lookupLabel M (get_le32 bytes o)).isSome := by
        apply h
        apply scanJumpTablePass1_lookup_isSome_preserve
        exact lookupLabel_insertLabel_self _ _
      have hM1 : (if !t then
          if startA ≤ ru ∧ ru ≤ endA then insertLabel M ru else M
        else M) = M := by
        cases t with
        | true => simp
        | false =>
          simp only [Bool.not_false, if_true]
          by_cases ha : startA ≤ ru ∧ ru ≤ endA
          · rw [if_pos ha]
            apply insertLabel_of_isSome
            apply h
            apply scanJumpTablePass1_lookup_isSome_preserve
            apply lookupLabel_insertLabel_isSome
            simp only [Bool.not_false, if_true]
            rw [if_pos ha]
            exact lookupLabel_insertLabel_self _ _
          · rw [if_neg ha]
      have hLM : scanJumpTablePass1 startA endA bytes (n + 1) o ru t M
          = scanJumpTablePass1 startA endA bytes n (o + 4) (ru + 4) true
              (insertLabel
                (if !t then
                  if startA ≤ ru ∧ ru ≤ endA then insertLabel M ru else M
                else M)
                (get_le32 bytes o)) := by
        simp only [scanJumpTablePass1]
        rw [if_pos hc]
      rw [hLM, hM1, insertLabel_of_isSome _ _ hnextM, hL]
      exact ih _ _ _ _ _ h
    · have hLL : (scanJumpTablePass1 startA endA bytes (n + 1) o ru t L).2
          = (o, ru) := by
        simp only [scanJumpTablePass1]
        rw [if_neg hc]
      have hLM : scanJumpTablePass1 startA endA bytes (n + 1) o ru t M
          = (M, o, ru) := by
        simp only [scanJumpTablePass1]
        rw [if_neg hc]
      rw [hLM, hLL]

theorem disassemblePass1_lookup_preserve (decode : Nat → Option Ins)
    (bytes : Nat → Nat) (startA endA endOff jfuel : Nat) :
    ∀ (fuel o ru : Nat) (L : LabelTable) (a : Nat) (s : String),
      lookupLabel L a = some s →
      lookupLabel
        (disassemblePass1 decode bytes startA endA endOff jfuel fuel o ru L) a
        = some s := by
  intro fuel
  induction fuel with
  | zero => intro o ru L a s h; exact h
  | succ n ih =>
    intro o ru L a s h
    simp only [disassemblePass1]
    cases hd : decode o with
    | none => exact h
    | some ins =>
      dsimp only
      by_cases hoe : o ≤ endOff
      · rw [if_pos hoe]
        have hlab1 : lookupLabel (if ins.isRelative = true then
            if startA ≤ ins.relTarget ∧ ins.relTarget ≤ endA then
              insertLabel L ins.relTarget
            else L
          else L) a = some s := by
          by_cases hrel : ins.isRelative = true
          · rw [if_pos hrel]
            by_cases htr : startA ≤ ins.relTarget ∧ ins.relTarget ≤ endA
            · rw [if_pos htr]; exact lookupLabel_insertLabel_preserve _ _ _ _ h
            · rw [if_neg htr]; exact h
          · rw [if_neg hrel]; exact h
        by_cases hj : ins.isNopOrJmp = true
        · rw [if_pos hj]
          apply ih
          exact scanJumpTablePass1_lookup_preserve _ _ _ _ _ _ _ _ _ _ hlab1
        · rw [if_neg hj]
          exact ih _ _ _ _ _ hlab1
      · rw [if_neg hoe]; exact h

theorem disassemblePass1_lookup_isSome_preserve (decode : Nat → Option Ins)
    (bytes : Nat → Nat) (startA endA endOff jfuel fuel o ru : Nat)
    (L : LabelTable) (a : Nat) (h : (lookupLabel L a).isSome) :
    (lookupLabel
      (disassemblePass1 decode bytes startA endA endOff jfuel fuel o ru L)
      a).isSome := by
  obtain ⟨s, hs⟩ := Option.isSome_iff_exists.mp h
  rw [disassemblePass1_lookup_preserve decode bytes startA endA endOff jfuel
    fuel o ru L a s hs]
  rfl

theorem disassemblePass1_stable (decode : Nat → Option Ins)
    (bytes : Nat → Nat) (startA endA endOff jfuel : Nat) :
    ∀ (fuel o ru : Nat) (L M : LabelTable),
      (∀ a, (lookupLabel
        (disassemblePass1 decode bytes startA endA endOff jfuel fuel o ru L)
        a).isSome → (lookupLabel M a).isSome) →
      disassemblePass1 decode bytes startA endA endOff jfuel fuel o ru M
        = M := by
  intro fuel
  induction fuel with
  | zero => intro o ru L M h; rfl
  | succ n ih =>
    intro o ru L M h
    cases hd : decode o with
    | none => simp [disassemblePass1, hd]
    | some ins =>
      by_cases hoe : o ≤ endOff
      · by_cases hj : ins.isNopOrJmp = true
        · simp only [disassemblePass1, hd, hoe, hj, if_true, if_pos] at h ⊢
          have hNM : (if ins.isRelative = true then
              if startA ≤ ins.relTarget ∧ ins.relTarget ≤ endA then
                insertLabel M ins.relTarget
              else M
            else M) = M := by
            by_cases hrel : ins.isRelative = true
            · rw [if_pos hrel]
              by_cases htr : startA ≤ ins.relTarget ∧ ins.relTarget ≤ endA
              · rw [if_pos htr]
                apply insertLabel_of_isSome
                apply h
                apply disassemblePass1_lookup_isSome_preserve
                apply scanJumpTablePass1_lookup_isSome_preserve
                rw [if_pos hrel, if_pos htr]
                exact lookupLabel_insertLabel_self _ _
              · rw [if_neg htr]
            · rw [if_neg hrel]
          rw [hNM]
          have hs : ∀ a, (lookupLabel
              (scanJumpTablePass1 startA endA bytes jfuel (o + ins.length)
                (ru + ins.length) false
                (if ins.isRelative = true then
                  if startA ≤ ins.relTarget ∧ ins.relTarget ≤ endA then
                    insertLabel L ins.relTarget
                  else L
                else L)).1 a).isSome → (lookupLabel M a).isSome := by
            intro a ha
            apply h
            exact disassemblePass1_lookup_isSome_preserve _ _ _ _ _ _ _ _ _ _ _
              ha
          rw [scanJumpTablePass1_stable startA endA bytes jfuel
            (o + ins.length) (ru + ins.length) false _ M hs]
          exact ih _ _ _ M h
        · simp only [disassemblePass1, hd, hoe, hj, if_true, if_pos,
            Bool.false_eq_true, if_false] at h ⊢
          have hNM : (if ins.isRelative = true then
              if startA ≤ ins.relTarget ∧ ins.relTarget ≤ endA then
                insertLabel M ins.relTarget
              else M
            else M) = M := by
            by_cases hrel : ins.isRelative = true
            · rw [if_pos hrel]
              by_cases htr : startA ≤ ins.relTarget ∧ ins.relTarget ≤ endA
              · rw [if_pos htr]
                apply insertLabel_of_isSome
                apply h
                apply disassemblePass1_lookup_isSome_preserve
                rw [if_pos hrel, if_pos htr]
                exact lookupLabel_insertLabel_self _ _
              · rw [if_neg htr]
            · rw [if_neg hrel]
          rw [hNM]
          exact ih _ _ _ M h
      · simp [disassemblePass1, hd, hoe]

theorem disassemblePass1_idem (decode : Nat → Option Ins) (bytes : Nat → Nat)
    (startA endA endOff jfuel fuel o ru : Nat) (L : LabelTable) :
    disassemblePass1 decode bytes startA endA endOff jfuel fuel o ru
        (disassemblePass1 decode bytes startA endA endOff jfuel fuel o ru L)
      = disassemblePass1 decode bytes startA endA endOff jfuel fuel o ru L :=
  disassemblePass1_stable decode bytes startA endA endOff jfuel fuel o ru L _
    (fun _ h => h)

/-- C8: re-running the disassembly (pass 1 then pass 2) over the same range
is byte-identical: the second run leaves the label table unchanged and
appends to the accumulated text exactly the same chunk sequence the first
run produced. -/
theorem c8_rerun_identical (e : DisasmEnv) (startA endA fuel jfuel : Nat)
    (L0 : LabelTable) :
    disassemble e startA endA fuel jfuel
        (disassemble e startA endA fuel jfuel L0 []).1
        (disassemble e startA endA fuel jfuel L0 []).2
      = ((disassemble e startA endA fuel jfuel L0 []).1,
          (disassemble e startA endA fuel jfuel L0 []).2
            ++ (disassemble e startA endA fuel jfuel L0 []).2) := by
  by_cases hz : e.sectionSize = 0
  · simp [disassemble, hz]
  · have hdec : ∀ (Lx : LabelTable) (ls : List String),
        disassemblePass2 e.decode e.fmt e.bytes startA endA
          (endA - e.sectionAddr) jfuel fuel (startA - e.sectionAddr) startA
          Lx ls
        = (ls ++ (disassemblePass2 e.decode e.fmt e.bytes startA endA
            (endA - e.sectionAddr) jfuel fuel (startA - e.sectionAddr) startA
            Lx []).1, Lx) := by
      intro Lx ls
      have hm := disassemblePass2_lines_mono e.decode e.fmt e.bytes startA endA
        (endA - e.sectionAddr) jfuel fuel (startA - e.sectionAddr) startA Lx
        ls []
      rw [List.append_nil] at hm
      rw [hm, disassemblePass2_labels]
    have hid := disassemblePass1_idem e.decode e.bytes startA endA
      (endA - e.sectionAddr) jfuel fuel (startA - e.sectionAddr) startA L0
    simp only [disassemble, if_neg hz]
    simp only [disassemblePass2_labels]
    rw [hid, hdec]

end Unassemblize
